import Mathlib

/-!
Verification of the temporal occupancy encoder and plan translator of the
grid-crossing planning template (`agent-crossing-template.py`).

The encoder (`generateInitString`) builds the PDDL init section by string
concatenation while maintaining a per-instant `free_cells` table.  We embed it
shallowly: each emitted s-expression becomes a constructor of `EFact`, cells
`pt{x}pt{y}` become pairs `(x, y)`, and the `free_cells` rows are threaded as
explicit list state.  The plan consumers (`generatePlan`, `simulateSolution`)
parse the planner's text output; we embed Python's string splitting as
structural functions over the character list of each line.
-/

/-- A grid cell, written `pt{x}pt{y}` in the generated PDDL text. -/
abbrev Cell := Nat × Nat

/-- One emitted init-section s-expression.  `atCar x y t i` is
`(at pt{x}pt{y} {t} car{i})`; `atAgent` is the `(at .. 0 agent1)` fact;
`fwdNext x y nx ny t s` is `(forward_next pt{x}pt{y} pt{nx}pt{ny} {t} {-s})`
(the file prints the speed negated; we record the magnitude `s`). -/
inductive EFact where
  | atCar (x y t carId : Nat)
  | blocked (x y t : Nat)
  | notBlocked (x y t : Nat)
  | atAgent (x y : Nat)
  | upNext (x y nx ny t : Nat)
  | downNext (x y nx ny t : Nat)
  | fwdNext (x y nx ny t s : Nat)
  | nextInstant (i j : Nat)
deriving DecidableEq

/-- A car from the snapshot: `car.id`, `car.position.x`, `car.position.y` and
`car.speed_range[0]` (the only speed field the encoder reads). -/
structure Car where
  id : Nat
  x : Nat
  y : Nat
  speed0 : Int
deriving DecidableEq

/-- The read-only simulation snapshot consumed by `GeneratePDDL_Stationary`:
grid dimensions, the agent's position and `speed_range` pair, the car list and
the finish cell. -/
structure Snapshot where
  width : Nat
  numLanes : Nat
  agentX : Nat
  agentY : Nat
  agentSpeedLo : Int
  agentSpeedHi : Int
  cars : List Car
  finishX : Nat
  finishY : Nat

/-- `max_time = self.width // abs(max(self.state.agent.speed_range)) + 1`. -/
def maxTime (s : Snapshot) : Nat :=
  s.width / (max s.agentSpeedLo s.agentSpeedHi).natAbs + 1

/-- `generateGridCells`: cells in the loop order `for w in range(width): for
lane in range(num_lanes)`. -/
def gridCellList (width numLanes : Nat) : List Cell :=
  (List.range width).flatMap fun w => (List.range numLanes).map fun lane => (w, lane)

/-- The projected x position of a car at instant `t` (lines 210-212):
`new_x = (x - speed*t) if (x - speed*t) >= 0 else
         (x - ((speed*t) % width) + width) % width`.
The else branch is computed here as `(x + width - m) % width` with
`m = (speed*t) % width`; for `width > 0` this equals the Python integer
expression since `m < width` keeps the natural subtraction exact. -/
def projectX (width x speed t : Nat) : Nat :=
  if speed * t ≤ x then x - speed * t
  else (x + width - (speed * t) % width) % width

/-- The projected cell: the x coordinate wraps, `new_y = car.position.y`. -/
def projectCell (width : Nat) (car : Car) (t : Nat) : Cell :=
  (projectX width car.x car.speed0.natAbs t, car.y)

/-- Marking state while generating occupancy facts for one instant: the facts
emitted so far and the instant's `free_cells` row. -/
abbrev MarkState := List EFact × List Cell

/-- One guarded blocking emission (lines 215-218 and 221-224 / 227-230):
`if cell in free_cells[t]: emit pre + (blocked cell t); free_cells[t].remove(cell)`.
`pre` is `[(at cell t car)]` for the projected cell and `[]` for swept cells. -/
def markBlocked (t : Nat) (pre : List EFact) (c : Cell) (st : MarkState) : MarkState :=
  if c ∈ st.2 then (st.1 ++ pre ++ [EFact.blocked c.1 c.2 t], st.2.erase c) else st

/-- Processing of one car at instant `t ≥ 1` (lines 208-230): mark the
projected cell, then sweep.  `range(new_x+1, prev_x)` is the non-wrapping
sweep (guarded by `new_x < prev_x and speed > 1`), and
`list(range(0, prev_x)) + list(range(new_x+1, width))` the wrapping one
(guarded by `new_x > prev_x`). -/
def carStep (width t : Nat) (st : MarkState) (car : Car) : MarkState :=
  let speed := car.speed0.natAbs
  let prevX := (projectCell width car (t - 1)).1
  let newX := (projectCell width car t).1
  let newY := (projectCell width car t).2
  let st1 := markBlocked t [EFact.atCar newX newY t car.id] (newX, newY) st
  if newX < prevX ∧ 1 < speed then
    (List.range' (newX + 1) (prevX - (newX + 1))).foldl
      (fun s2 xco => markBlocked t [] (xco, newY) s2) st1
  else if prevX < newX then
    (List.range prevX ++ List.range' (newX + 1) (width - (newX + 1))).foldl
      (fun s2 xco => markBlocked t [] (xco, newY) s2) st1
  else st1

/-- The body of the instant-0 loop (lines 201-205): a car whose cell is not
`pt0pt0` gets an `(at ..)` and a `(blocked ..)` fact and is removed from
`free_cells[0]`.  (Python's `list.remove` would raise if the cell were absent;
on snapshots with in-grid, pairwise distinct car cells it never is, and
`List.erase` agrees there.) -/
def row0Step (st : MarkState) (car : Car) : MarkState :=
  if car.x ≠ 0 ∨ car.y ≠ 0 then
    (st.1 ++ [EFact.atCar car.x car.y 0 car.id, EFact.blocked car.x car.y 0],
     st.2.erase (car.x, car.y))
  else st

/-- The instant-0 marking state after the loop of lines 201-205. -/
def row0State (s : Snapshot) : MarkState :=
  s.cars.foldl row0Step ([], gridCellList s.width s.numLanes)

/-- The marking state after the car loop of instant `t` (lines 208-230),
starting from a fresh copy of the grid cell list. -/
def instantState (s : Snapshot) (t : Nat) : MarkState :=
  s.cars.foldl (carStep s.width t) ([], gridCellList s.width s.numLanes)

/-- Facts emitted while processing instant `t ≥ 1`: the blocking facts of the
car loop followed by `(not (blocked cell t))` for every remaining free cell
(lines 233-234). -/
def instantFacts (s : Snapshot) (t : Nat) : List EFact :=
  (instantState s t).1 ++ (instantState s t).2.map fun c => EFact.notBlocked c.1 c.2 t

/-- `free_cells[t]` as read by the transition loop.  After the car loops,
line 238 runs `if "pt0pt0" not in free_cells[t]: free_cells[t].append("pt0pt0")`
where `t` is the leaked loop variable, i.e. `max_time - 1` (Python would raise
`NameError` if the loop never ran, i.e. `max_time ≤ 1`).  Rows are otherwise
written only while their own instant is processed, so each row is computed
independently here. -/
def baseRow (s : Snapshot) (t : Nat) : List Cell :=
  if t = 0 then (row0State s).2 else (instantState s t).2

/-- Row `t` after the conditional restoration of `pt0pt0` (line 238). -/
def freeCellsAt (s : Snapshot) (t : Nat) : List Cell :=
  if t = maxTime s - 1 ∧ (0, 0) ∉ baseRow s t then baseRow s t ++ [(0, 0)] else baseRow s t

/-- The transition facts emitted for one cell at one instant (lines 240-254).
`new_x = cur_x if cur_x == 0 else max(0, cur_x - 1)`, the lateral candidates
degrade to the unchanged row when the candidate cell is not free, and the
three forward facts use `max(0, cur_x - s)` for `s` in `range(1, 4)`. -/
def cellTransFacts (numLanes : Nat) (free : List Cell) (t : Nat) (c : Cell) : List EFact :=
  let curX := c.1
  let curY := c.2
  let newX := if curX = 0 then curX else max 0 (curX - 1)
  let upY := if curY = 0 then curY else curY - 1
  let newUpY := if (newX, upY) ∈ free then upY else curY
  let downY := if curY = numLanes - 1 then curY else curY + 1
  let newDownY := if (newX, downY) ∈ free then downY else curY
  [EFact.upNext curX curY newX newUpY t, EFact.downNext curX curY newX newDownY t] ++
    (List.range' 1 3).map fun sp =>
      EFact.fwdNext curX curY (if curX = 0 then curX else max 0 (curX - sp)) curY t sp

/-- The transition loop (lines 239-254): for every instant in
`range(1, max_time)` and every grid cell, in loop order. -/
def transFacts (s : Snapshot) : List EFact :=
  (List.range' 1 (maxTime s - 1)).flatMap fun t =>
    (gridCellList s.width s.numLanes).flatMap fun c =>
      cellTransFacts s.numLanes (freeCellsAt s t) t c

/-- `(next_instant i i+1)` for `i in range(max_time)` (lines 256-257). -/
def nextInstantFacts (s : Snapshot) : List EFact :=
  (List.range (maxTime s)).map fun i => EFact.nextInstant i (i + 1)

/-- The full init string of `generateInitString`, as a fact list in emission
order: instant-0 occupancy, occupancy and freeness per later instant, the
agent's `(at .. 0 agent1)` fact, the transition facts, the instant chain. -/
def initFacts (s : Snapshot) : List EFact :=
  (row0State s).1
    ++ ((List.range' 1 (maxTime s - 1)).flatMap fun t => instantFacts s t)
    ++ [EFact.atAgent s.agentX s.agentY]
    ++ transFacts s
    ++ nextInstantFacts s

/-- The encoder records cell `c` as blocked at instant `t`. -/
def blockedAt (s : Snapshot) (t : Nat) (c : Cell) : Prop :=
  EFact.blocked c.1 c.2 t ∈ initFacts s

instance (s : Snapshot) (t : Nat) (c : Cell) : Decidable (blockedAt s t c) := by
  unfold blockedAt; infer_instance

/-- `generateGoalString` disjuncts: `(at pt{fx}pt{fy} {i} agent1)` for
`i in range(self.width)`.  Each entry is `(x, y, instant)` of one disjunct. -/
def goalDisjuncts (s : Snapshot) : List (Nat × Nat × Nat) :=
  (List.range s.width).map fun i => (s.finishX, s.finishY, i)

/-- Satisfaction of the emitted goal by an agent trajectory `hist` (the cell
asserted for the agent at each instant): some disjunct holds. -/
def goalSat (s : Snapshot) (hist : Nat → Cell) : Prop :=
  ∃ d ∈ goalDisjuncts s, hist d.2.2 = (d.1, d.2.1)

/-- The declared `time` objects of the problem file:
`gen.addObjects("time", [str(x) for x in list(range(gen.width))])`. -/
def timeObjects (s : Snapshot) : List Nat :=
  List.range s.width

/-- The instants named by one emitted fact. -/
def factInstants : EFact → List Nat
  | .atCar _ _ t _ => [t]
  | .blocked _ _ t => [t]
  | .notBlocked _ _ t => [t]
  | .atAgent _ _ => [0]
  | .upNext _ _ _ _ t => [t]
  | .downNext _ _ _ _ t => [t]
  | .fwdNext _ _ _ _ t _ => [t]
  | .nextInstant i j => [i, j]

/-! ### Plan-file parsing (`generatePlan` and `simulateSolution`)

Plan lines are modelled as strings without their trailing newline; Python's
`line.split()` coincides with splitting the remaining text on space runs.
Environment actions are recorded as the Python index used on `env.actions`:
`0` (lateral up), `1` (lateral down), and negative indices from the end, where
`env.actions[-s]` is the forward action of speed magnitude `s` (so `-1` is the
minimum-speed forward action). -/

/-- `line.split()`: words separated by runs of whitespace. -/
def wordsAux : List Char → List Char → List (List Char)
  | [], acc => if acc = [] then [] else [acc.reverse]
  | c :: rest, acc =>
    if c = ' ' then
      if acc = [] then wordsAux rest [] else acc.reverse :: wordsAux rest []
    else wordsAux rest (c :: acc)

/-- The token list of one plan line. -/
def lineTokens (line : String) : List (List Char) :=
  wordsAux line.data []

/-- `s.split('pt')`: split on occurrences of the two-character separator,
left to right, keeping empty pieces (Python `str.split` with an argument). -/
def splitPt : List Char → List Char → List (List Char)
  | 'p' :: 't' :: rest, acc => acc.reverse :: splitPt rest []
  | c :: rest, acc => splitPt rest (c :: acc)
  | [], acc => [acc.reverse]

/-- `points.split('pt')[2]`: the lane (y) field of a cell token
`pt{x}pt{y}`; `none` models Python's `IndexError` when the token has fewer
than three `pt`-separated fields. -/
def coordOf (tok : List Char) : Option (List Char) :=
  (splitPt tok []).get? 2

/-- `len(set(coords)) == 1`. -/
def pySetCard1 (l : List (List Char)) : Bool :=
  l.dedup.length == 1

/-- Digit-string value, `none` on empty input or a non-digit. -/
def digitsToNat : List Char → Option Nat
  | [] => none
  | cs => cs.foldlM (fun acc c => if c.isDigit then some (acc * 10 + (c.toNat - '0'.toNat)) else none) 0

/-- `int(token)` on tokens of the shape an optional minus sign followed by
digits (the only shapes the planner emits); `none` models `ValueError`. -/
def pyInt : List Char → Option Int
  | '-' :: rest => (digitsToNat rest).map fun n => -(n : Int)
  | cs => (digitsToNat cs).map fun n => (n : Int)

/-- The loop body of `generatePlan` (lines 431-447) for one plan line, with
`acc` the `action_sequence` so far.  A line not starting with `(` is skipped;
`action = line.split()[0][1:]`; the coordinate fields of tokens `[1:3]` are
extracted before any action-name test, so a missing `pt` field is an error
(`IndexError`) even for unrecognized names; an unrecognized action name falls
through every `if` and contributes nothing. -/
def generatePlanStep (acc : List Int) (line : String) : Except String (List Int) :=
  if line.data.head? ≠ some '(' then .ok acc
  else
    let toks := lineTokens line
    let action := (toks.headD []).drop 1
    match ((toks.drop 1).take 2).mapM coordOf with
    | none => .error line
    | some coords =>
      if action = ['u', 'p'] then
        .ok (acc ++ [if pySetCard1 coords then -1 else 0])
      else if action = ['d', 'o', 'w', 'n'] then
        .ok (acc ++ [if pySetCard1 coords then -1 else 1])
      else if action = ['f', 'o', 'r', 'w', 'a', 'r', 'd'] then
        match pyInt (toks.getLastD []).dropLast with
        | none => .error line
        | some sp => .ok (acc ++ [sp])
      else .ok acc

/-- `generatePlan`: the `action_sequence` accumulated over the plan file's
lines, or the first uncaught parsing exception. -/
def generatePlan (lines : List String) : Except String (List Int) :=
  (List.foldlM generatePlanStep [] lines : Except String (List Int))

/-- The loop body of `simulateSolution` (lines 405-423) for one plan line:
identical parsing, with each chosen action passed to `env.step` in order
(the `acc` list records the stepped actions); `print`/`render` are I/O. -/
def simulateStep (acc : List Int) (line : String) : Except String (List Int) :=
  if line.data.head? ≠ some '(' then .ok acc
  else
    let toks := lineTokens line
    let action := (toks.headD []).drop 1
    match ((toks.drop 1).take 2).mapM coordOf with
    | none => .error line
    | some coords =>
      if action = ['u', 'p'] then
        .ok (acc ++ [if pySetCard1 coords then -1 else 0])
      else if action = ['d', 'o', 'w', 'n'] then
        .ok (acc ++ [if pySetCard1 coords then -1 else 1])
      else if action = ['f', 'o', 'r', 'w', 'a', 'r', 'd'] then
        match pyInt (toks.getLastD []).dropLast with
        | none => .error line
        | some sp => .ok (acc ++ [sp])
      else .ok acc

/-- The ordered sequence of actions `simulateSolution` feeds to `env.step`. -/
def simulateSteps (lines : List String) : Except String (List Int) :=
  (List.foldlM simulateStep [] lines : Except String (List Int))

/-! ### Invariants of the occupancy marking state -/

/-- Facts produced by the car-marking loops: occupancy and blocking only. -/
def OccFact : EFact → Prop
  | .atCar _ _ _ _ => True
  | .blocked _ _ _ => True
  | _ => False

/-- Invariant of the marking state while instant `t` is processed over
`grid`: the free row has no duplicates, every grid cell is free or has a
blocking fact, no free cell has a blocking fact, every blocking fact emitted
so far is tagged `t`, and all facts are occupancy facts. -/
structure GoodState (grid : List Cell) (t : Nat) (st : MarkState) : Prop where
  nodup : st.2.Nodup
  cover : ∀ c ∈ grid, c ∈ st.2 ∨ EFact.blocked c.1 c.2 t ∈ st.1
  disj : ∀ c ∈ st.2, EFact.blocked c.1 c.2 t ∉ st.1
  tag : ∀ x y u, EFact.blocked x y u ∈ st.1 → u = t
  occ : ∀ f ∈ st.1, OccFact f

instance (s : Snapshot) (hist : Nat → Cell) : Decidable (goalSat s hist) := by
  unfold goalSat
  infer_instance

/-! ### Concrete snapshots used to settle individual claims

All use `agent_speed_range = (-3, -1)` as `gym.make` is called with in the
source, so the minimum speed magnitude is 1 and `max_time = width + 1`. -/

/-- 2×1 grid, one car at the origin cell moving left at speed 1. -/
def snapC1 : Snapshot := ⟨2, 1, 0, 0, -3, -1, [⟨7, 0, 0, -1⟩], 1, 0⟩

/-- 3×2 grid with one car, used to witness the partition theorem. -/
def snapC1w : Snapshot := ⟨3, 2, 0, 0, -3, -1, [⟨1, 2, 1, -1⟩], 2, 1⟩

/-- 6×1 grid, one car at x=4 with speed magnitude 3: it sweeps 4 → 1 during
the first instant. -/
def snapC2 : Snapshot := ⟨6, 1, 0, 0, -3, -1, [⟨0, 4, 0, -3⟩], 5, 0⟩

/-- 5×2 grid with no cars, used to witness the lateral-successor theorem. -/
def snapC3 : Snapshot := ⟨5, 2, 0, 0, -3, -1, [], 4, 1⟩

/-- 2×1 grid with no cars, finish at (1,0). -/
def snapC4 : Snapshot := ⟨2, 1, 0, 0, -3, -1, [], 1, 0⟩

/-- An agent trajectory that reaches the finish cell of `snapC4` only at
instant 2 (an instant below the horizon but outside the emitted goal). -/
def histC4 : Nat → Cell := fun i => if i = 2 then (1, 0) else (0, 0)

/-- 3×2 grid, agent at the origin, one car at (2,1), one car at the origin
cell itself. -/
def snapC7 : Snapshot := ⟨3, 2, 0, 0, -3, -1, [⟨1, 2, 1, -1⟩, ⟨2, 0, 0, -1⟩], 2, 1⟩

/-- 2×1 grid, one car: `max_time = 3` but only time objects 0 and 1 are
declared. -/
def snapC8 : Snapshot := ⟨2, 1, 0, 0, -3, -1, [⟨0, 1, 0, -1⟩], 1, 0⟩

theorem gridCellList_eq_product (w l : Nat) :
    gridCellList w l = (List.range w) ×ˢ (List.range l) := rfl

theorem nodup_gridCellList (w l : Nat) : (gridCellList w l).Nodup := by
  rw [gridCellList_eq_product]
  exact List.Nodup.product (List.nodup_range w) (List.nodup_range l)

theorem mem_gridCellList {w l : Nat} {c : Cell} :
    c ∈ gridCellList w l ↔ c.1 < w ∧ c.2 < l := by
  rw [gridCellList_eq_product]
  cases c
  rw [List.mem_product]
  simp [List.mem_range]

theorem goodState_init (w l : Nat) (t : Nat) :
    GoodState (gridCellList w l) t ([], gridCellList w l) := by
  refine ⟨nodup_gridCellList w l, fun c hc => Or.inl hc, ?_, ?_, ?_⟩ <;> simp

theorem goodState_markBlocked {grid : List Cell} {t : Nat} {pre : List EFact} {c : Cell}
    {st : MarkState} (hpre : ∀ x y u, EFact.blocked x y u ∉ pre)
    (hpocc : ∀ f ∈ pre, OccFact f)
    (h : GoodState grid t st) : GoodState grid t (markBlocked t pre c st) := by
  unfold markBlocked
  by_cases hc : c ∈ st.2
  · rw [if_pos hc]
    refine ⟨h.nodup.erase c, ?_, ?_, ?_, ?_⟩
    · intro d hd
      rcases h.cover d hd with hmem | hfact
      · by_cases hdc : d = c
        · subst hdc; right; simp
        · exact Or.inl ((List.mem_erase_of_ne hdc).mpr hmem)
      · right; simp [hfact]
    · intro d hd hmemf
      obtain ⟨hne, hd'⟩ := (h.nodup.mem_erase_iff).mp hd
      rcases List.mem_append.mp hmemf with hmemf' | hlast
      · rcases List.mem_append.mp hmemf' with h1 | h2
        · exact h.disj d hd' h1
        · exact hpre d.1 d.2 t h2
      · rw [List.mem_singleton] at hlast
        have : d.1 = c.1 ∧ d.2 = c.2 := by
          injection hlast with e1 e2 e3
          exact ⟨e1, e2⟩
        exact hne (Prod.ext this.1 this.2)
    · intro x y u hu
      rcases List.mem_append.mp hu with hu' | hlast
      · rcases List.mem_append.mp hu' with h1 | h2
        · exact h.tag x y u h1
        · exact absurd h2 (hpre x y u)
      · rw [List.mem_singleton] at hlast
        injection hlast
    · intro f hf
      rcases List.mem_append.mp hf with hf' | hlast
      · rcases List.mem_append.mp hf' with h1 | h2
        · exact h.occ f h1
        · exact hpocc f h2
      · rw [List.mem_singleton] at hlast
        subst hlast; trivial
  · rwa [if_neg hc]

theorem goodState_foldMark {grid : List Cell} {t : Nat} (yy : Nat) (L : List Nat)
    {st : MarkState} (h : GoodState grid t st) :
    GoodState grid t (L.foldl (fun s2 xco => markBlocked t [] (xco, yy) s2) st) := by
  induction L generalizing st with
  | nil => exact h
  | cons a L ih => exact ih (goodState_markBlocked (by simp) (by simp) h)

theorem goodState_carStep {grid : List Cell} {t : Nat} {st : MarkState}
    (width : Nat) (car : Car) (h : GoodState grid t st) :
    GoodState grid t (carStep width t st car) := by
  unfold carStep
  have h1 : GoodState grid t (markBlocked t
      [EFact.atCar (projectCell width car t).1 (projectCell width car t).2 t car.id]
      ((projectCell width car t).1, (projectCell width car t).2) st) :=
    goodState_markBlocked (by simp) (by simp [OccFact]) h
  dsimp only
  split
  · exact goodState_foldMark _ _ h1
  · split
    · exact goodState_foldMark _ _ h1
    · exact h1

theorem goodState_foldCars {grid : List Cell} {t width : Nat} (cars : List Car)
    {st : MarkState} (h : GoodState grid t st) :
    GoodState grid t (cars.foldl (carStep width t) st) := by
  induction cars generalizing st with
  | nil => exact h
  | cons car cars ih => exact ih (goodState_carStep width car h)

theorem goodState_instantState (s : Snapshot) (t : Nat) :
    GoodState (gridCellList s.width s.numLanes) t (instantState s t) :=
  goodState_foldCars s.cars (goodState_init s.width s.numLanes t)

theorem goodState_row0Step {grid : List Cell} {st : MarkState} (car : Car)
    (h : GoodState grid 0 st) : GoodState grid 0 (row0Step st car) := by
  unfold row0Step
  by_cases hc : car.x ≠ 0 ∨ car.y ≠ 0
  · rw [if_pos hc]
    refine ⟨h.nodup.erase _, ?_, ?_, ?_, ?_⟩
    · intro d hd
      rcases h.cover d hd with hmem | hfact
      · by_cases hdc : d = (car.x, car.y)
        · subst hdc; right; simp
        · exact Or.inl ((List.mem_erase_of_ne hdc).mpr hmem)
      · right; simp [hfact]
    · intro d hd hmemf
      obtain ⟨hne, hd'⟩ := (h.nodup.mem_erase_iff).mp hd
      rcases List.mem_append.mp hmemf with h1 | h2
      · exact h.disj d hd' h1
      · rw [List.mem_cons, List.mem_singleton] at h2
        rcases h2 with h2 | h2
        · injection h2
        · have : d.1 = car.x ∧ d.2 = car.y := by
            injection h2 with e1 e2 e3
            exact ⟨e1, e2⟩
          exact hne (Prod.ext this.1 this.2)
    · intro x y u hu
      rcases List.mem_append.mp hu with h1 | h2
      · exact h.tag x y u h1
      · rw [List.mem_cons, List.mem_singleton] at h2
        rcases h2 with h2 | h2
        · injection h2
        · injection h2
    · intro f hf
      rcases List.mem_append.mp hf with h1 | h2
      · exact h.occ f h1
      · rw [List.mem_cons, List.mem_singleton] at h2
        rcases h2 with h2 | h2 <;> (subst h2; trivial)
  · rwa [if_neg hc]

theorem goodState_row0 (s : Snapshot) :
    GoodState (gridCellList s.width s.numLanes) 0 (row0State s) := by
  unfold row0State
  generalize hst : (([], gridCellList s.width s.numLanes) : MarkState) = st
  have h : GoodState (gridCellList s.width s.numLanes) 0 st := by
    rw [← hst]; exact goodState_init s.width s.numLanes 0
  clear hst
  induction s.cars generalizing st with
  | nil => exact h
  | cons car cars ih => exact ih _ (goodState_row0Step car h)

/-! ### Monotonicity of the marking state -/

theorem markBlocked_fst_subset {t : Nat} {pre : List EFact} {c : Cell} {st : MarkState} :
    st.1 ⊆ (markBlocked t pre c st).1 := by
  unfold markBlocked
  split
  · exact fun f hf => by simp [hf]
  · exact fun f hf => hf

theorem markBlocked_snd_subset {t : Nat} {pre : List EFact} {c : Cell} {st : MarkState} :
    (markBlocked t pre c st).2 ⊆ st.2 := by
  unfold markBlocked
  split
  · exact fun d hd => List.mem_of_mem_erase hd
  · exact fun d hd => hd

theorem foldMark_fst_subset {t yy : Nat} (L : List Nat) {st : MarkState} :
    st.1 ⊆ (L.foldl (fun s2 xco => markBlocked t [] (xco, yy) s2) st).1 := by
  induction L generalizing st with
  | nil => exact fun f hf => hf
  | cons a L ih => exact fun f hf => ih (markBlocked_fst_subset hf)

theorem carStep_fst_subset {t width : Nat} {st : MarkState} {car : Car} :
    st.1 ⊆ (carStep width t st car).1 := by
  unfold carStep
  dsimp only
  split
  · exact fun f hf => foldMark_fst_subset _ (markBlocked_fst_subset hf)
  · split
    · exact fun f hf => foldMark_fst_subset _ (markBlocked_fst_subset hf)
    · exact fun f hf => markBlocked_fst_subset hf

theorem foldCars_fst_subset {t width : Nat} (cars : List Car) {st : MarkState} :
    st.1 ⊆ (cars.foldl (carStep width t) st).1 := by
  induction cars generalizing st with
  | nil => exact fun f hf => hf
  | cons car cars ih => exact fun f hf => ih (carStep_fst_subset hf)

/-! ### Marking a cell records a blocking fact -/

theorem markBlocked_fact_mem {grid : List Cell} {t : Nat} {pre : List EFact} {c : Cell}
    {st : MarkState} (h : GoodState grid t st) (hc : c ∈ grid) :
    EFact.blocked c.1 c.2 t ∈ (markBlocked t pre c st).1 := by
  unfold markBlocked
  by_cases hm : c ∈ st.2
  · rw [if_pos hm]; simp
  · rw [if_neg hm]
    rcases h.cover c hc with h' | h'
    · exact absurd h' hm
    · exact h'

theorem foldMark_fact_mem {grid : List Cell} {t yy : Nat} {L : List Nat} {st : MarkState}
    {x : Nat} (h : GoodState grid t st) (hx : x ∈ L) (hc : ((x, yy) : Cell) ∈ grid) :
    EFact.blocked x yy t ∈ (L.foldl (fun s2 xco => markBlocked t [] (xco, yy) s2) st).1 := by
  induction L generalizing st with
  | nil => cases hx
  | cons a L ih =>
    rw [List.mem_cons] at hx
    rcases hx with rfl | hx
    · exact foldMark_fst_subset L (markBlocked_fact_mem h hc)
    · exact ih (goodState_markBlocked (by simp) (by simp) h) hx

theorem carStep_proj_fact {grid : List Cell} {t width : Nat} {st : MarkState} {car : Car}
    (h : GoodState grid t st) (hc : projectCell width car t ∈ grid) :
    EFact.blocked (projectCell width car t).1 (projectCell width car t).2 t
      ∈ (carStep width t st car).1 := by
  unfold carStep
  dsimp only
  have h1 : EFact.blocked (projectCell width car t).1 (projectCell width car t).2 t
      ∈ (markBlocked t
          [EFact.atCar (projectCell width car t).1 (projectCell width car t).2 t car.id]
          ((projectCell width car t).1, (projectCell width car t).2) st).1 :=
    markBlocked_fact_mem h hc
  split
  · exact foldMark_fst_subset _ h1
  · split
    · exact foldMark_fst_subset _ h1
    · exact h1

theorem carStep_sweep_fact {grid : List Cell} {t width : Nat} {st : MarkState} {car : Car}
    {x : Nat} (h : GoodState grid t st) (hc : ((x, car.y) : Cell) ∈ grid)
    (hx : ((projectCell width car t).1 < (projectCell width car (t - 1)).1 ∧
            1 < car.speed0.natAbs ∧
            (projectCell width car t).1 < x ∧ x < (projectCell width car (t - 1)).1) ∨
          ((projectCell width car (t - 1)).1 < (projectCell width car t).1 ∧
            (x < (projectCell width car (t - 1)).1 ∨
             ((projectCell width car t).1 < x ∧ x < width)))) :
    EFact.blocked x car.y t ∈ (carStep width t st car).1 := by
  unfold carStep
  dsimp only
  have h1 : GoodState grid t (markBlocked t [EFact.atCar (projectCell width car t).1
      (projectCell width car t).2 t car.id]
      ((projectCell width car t).1, (projectCell width car t).2) st) :=
    goodState_markBlocked (by simp) (by simp [OccFact]) h
  rcases hx with ⟨hlt, hsp, hx1, hx2⟩ | ⟨hgt, hx1⟩
  · rw [if_pos ⟨hlt, hsp⟩]
    refine foldMark_fact_mem h1 ?_ hc
    rw [List.mem_range'_1]
    omega
  · rw [if_neg (by omega), if_pos hgt]
    refine foldMark_fact_mem h1 ?_ hc
    rw [List.mem_append, List.mem_range, List.mem_range'_1]
    omega

/-! ### Locating facts inside the emitted init section -/

theorem one_le_maxTime (s : Snapshot) : 1 ≤ maxTime s :=
  Nat.succ_le_succ (Nat.zero_le _)

theorem blocked_not_mem_transFacts {s : Snapshot} {x y u : Nat} :
    EFact.blocked x y u ∉ transFacts s := by
  intro h
  rw [transFacts, List.mem_flatMap] at h
  obtain ⟨t, _, h⟩ := h
  rw [List.mem_flatMap] at h
  obtain ⟨c, _, h⟩ := h
  simp only [cellTransFacts, List.mem_append, List.mem_cons, List.mem_map,
    List.mem_singleton] at h
  rcases h with (h | h | h) | ⟨sp, _, h⟩ <;> simp_all

theorem blocked_row0_iff (cars : List Car) (st : MarkState) (x y u : Nat) :
    EFact.blocked x y u ∈ (cars.foldl row0Step st).1 ↔
      EFact.blocked x y u ∈ st.1 ∨
        (u = 0 ∧ ∃ car ∈ cars, car.x = x ∧ car.y = y ∧ (car.x ≠ 0 ∨ car.y ≠ 0)) := by
  induction cars generalizing st with
  | nil => simp
  | cons car cars ih =>
    rw [List.foldl_cons, ih]
    unfold row0Step
    by_cases hc : car.x ≠ 0 ∨ car.y ≠ 0
    · rw [if_pos hc]
      simp only [List.mem_append, List.mem_cons, List.not_mem_nil, or_false]
      constructor
      · rintro ((h | h | h) | h)
        · exact Or.inl h
        · cases h
        · injection h with e1 e2 e3
          exact Or.inr ⟨e3, car, Or.inl rfl, e1.symm, e2.symm, hc⟩
        · obtain ⟨hu, car', hmem, hrest⟩ := h
          exact Or.inr ⟨hu, car', Or.inr hmem, hrest⟩
      · rintro (h | ⟨hu, car', hmem, hx, hy, hne⟩)
        · exact Or.inl (Or.inl h)
        · rcases hmem with rfl | hmem
          · subst hx; subst hy; subst hu
            exact Or.inl (Or.inr (Or.inr rfl))
          · exact Or.inr ⟨hu, car', hmem, hx, hy, hne⟩
    · rw [if_neg hc]
      push_neg at hc
      simp only [List.mem_cons]
      constructor
      · rintro (h | ⟨hu, car', hmem, hrest⟩)
        · exact Or.inl h
        · exact Or.inr ⟨hu, car', Or.inr hmem, hrest⟩
      · rintro (h | ⟨hu, car', hmem, hx, hy, hne⟩)
        · exact Or.inl h
        · rcases hmem with rfl | hmem
          · rcases hne with hne | hne
            · exact absurd hc.1 hne
            · exact absurd hc.2 hne
          · exact Or.inr ⟨hu, car', hmem, hx, hy, hne⟩

theorem blocked_row0State_iff (s : Snapshot) (x y u : Nat) :
    EFact.blocked x y u ∈ (row0State s).1 ↔
      u = 0 ∧ ∃ car ∈ s.cars, car.x = x ∧ car.y = y ∧ (car.x ≠ 0 ∨ car.y ≠ 0) := by
  rw [row0State, blocked_row0_iff]
  simp

theorem blocked_initFacts_iff (s : Snapshot) (x y u : Nat) :
    EFact.blocked x y u ∈ initFacts s ↔
      (EFact.blocked x y u ∈ (row0State s).1 ∨
        (1 ≤ u ∧ u < maxTime s ∧ EFact.blocked x y u ∈ (instantState s u).1)) := by
  have hmax := one_le_maxTime s
  unfold initFacts
  simp only [List.mem_append, List.mem_singleton, List.mem_flatMap, List.mem_range'_1,
    List.mem_map]
  constructor
  · rintro ((((h | h) | h) | h) | h)
    · exact Or.inl h
    · obtain ⟨t, ht, h⟩ := h
      rw [instantFacts, List.mem_append] at h
      rcases h with h | h
      · have := (goodState_instantState s t).tag x y u h
        subst this
        exact Or.inr ⟨ht.1, by omega, h⟩
      · rw [List.mem_map] at h
        obtain ⟨c, _, hc⟩ := h
        cases hc
    · cases h
    · exact absurd h blocked_not_mem_transFacts
    · rw [nextInstantFacts, List.mem_map] at h
      obtain ⟨i, _, hi⟩ := h
      cases hi
  · rintro (h | ⟨h1, h2, h⟩)
    · exact Or.inl (Or.inl (Or.inl (Or.inl h)))
    · refine Or.inl (Or.inl (Or.inl (Or.inr ⟨u, ⟨h1, by omega⟩, ?_⟩)))
      rw [instantFacts, List.mem_append]
      exact Or.inl h

theorem notOcc_mem_initFacts_iff (s : Snapshot) (f : EFact)
    (hocc : ¬ OccFact f)
    (hnb : ∀ x y u, f ≠ EFact.notBlocked x y u)
    (hag : ∀ x y, f ≠ EFact.atAgent x y)
    (hni : ∀ i j, f ≠ EFact.nextInstant i j) :
    f ∈ initFacts s ↔ f ∈ transFacts s := by
  unfold initFacts
  simp only [List.mem_append, List.mem_singleton]
  constructor
  · rintro ((((h | h) | h) | h) | h)
    · exact absurd ((goodState_row0 s).occ f h) hocc
    · exfalso
      rw [List.mem_flatMap] at h
      obtain ⟨t', _, h⟩ := h
      rw [instantFacts, List.mem_append] at h
      rcases h with h | h
      · exact absurd ((goodState_instantState s t').occ f h) hocc
      · rw [List.mem_map] at h
        obtain ⟨c, _, hc⟩ := h
        exact hnb c.1 c.2 t' hc.symm
    · exact absurd h (hag s.agentX s.agentY)
    · exact h
    · exfalso
      rw [nextInstantFacts, List.mem_map] at h
      obtain ⟨i, _, hi⟩ := h
      exact hni i (i + 1) hi.symm
  · intro h
    exact Or.inl (Or.inr h)

/-! ### The free row versus the blocking facts -/

theorem base_cover (s : Snapshot) (t : Nat) (c : Cell)
    (hc : c ∈ gridCellList s.width s.numLanes) (ht : t < maxTime s) :
    c ∈ baseRow s t ∨ EFact.blocked c.1 c.2 t ∈ initFacts s := by
  unfold baseRow
  by_cases ht0 : t = 0
  · subst ht0
    rw [if_pos rfl]
    rcases (goodState_row0 s).cover c hc with h | h
    · exact Or.inl h
    · exact Or.inr ((blocked_initFacts_iff s c.1 c.2 0).mpr (Or.inl h))
  · rw [if_neg ht0]
    rcases (goodState_instantState s t).cover c hc with h | h
    · exact Or.inl h
    · exact Or.inr ((blocked_initFacts_iff s c.1 c.2 t).mpr (Or.inr ⟨by omega, ht, h⟩))

theorem base_disjoint (s : Snapshot) (t : Nat) (c : Cell)
    (h1 : c ∈ baseRow s t)
    (h2 : EFact.blocked c.1 c.2 t ∈ initFacts s) : False := by
  unfold baseRow at h1
  rcases (blocked_initFacts_iff s c.1 c.2 t).mp h2 with h | ⟨hu1, _, h⟩
  · have ht0 := (goodState_row0 s).tag c.1 c.2 t h
    subst ht0
    rw [if_pos rfl] at h1
    exact (goodState_row0 s).disj c h1 h
  · have ht0 : t ≠ 0 := by omega
    rw [if_neg ht0] at h1
    exact (goodState_instantState s t).disj c h1 h

/-! ### Claim C1 -/

/-- C1 (amended).  For every snapshot, every grid cell and every instant
`t < max_time`, the blocked set and the free row cover the full cell set; any
cell both recorded blocked and kept in the free row can only be the origin
cell `pt0pt0` and only at the final instant `max_time - 1`, where line 238
unconditionally restores `pt0pt0` to the free row after occupancy marking.
For all earlier instants the two sets are an exact partition. -/
theorem blocked_free_partition (s : Snapshot) (c : Cell)
    (hc : c ∈ gridCellList s.width s.numLanes) (t : Nat) (ht : t < maxTime s) :
    (c ∈ freeCellsAt s t ∨ blockedAt s t c) ∧
    (c ∈ freeCellsAt s t → blockedAt s t c → t = maxTime s - 1 ∧ c = (0, 0)) := by
  unfold blockedAt
  constructor
  · rcases base_cover s t c hc ht with h | h
    · left
      unfold freeCellsAt
      split
      · exact List.mem_append_left _ h
      · exact h
    · exact Or.inr h
  · intro hfree hblocked
    unfold freeCellsAt at hfree
    split at hfree
    · rename_i hcond
      rcases List.mem_append.mp hfree with h1 | h1
      · exact (base_disjoint s t c h1 hblocked).elim
      · rw [List.mem_singleton] at h1
        exact ⟨hcond.1, h1⟩
    · exact (base_disjoint s t c hfree hblocked).elim

/-- C1 witness: the partition theorem applied to a concrete snapshot, cell
and instant. -/
theorem blocked_free_partition_witness :
    (((1, 1) : Cell) ∈ freeCellsAt snapC1w 1 ∨ blockedAt snapC1w 1 (1, 1)) ∧
    (((1, 1) : Cell) ∈ freeCellsAt snapC1w 1 → blockedAt snapC1w 1 (1, 1) →
      1 = maxTime snapC1w - 1 ∧ ((1, 1) : Cell) = (0, 0)) :=
  blocked_free_partition snapC1w (1, 1) (by decide) 1 (by decide)

/-- C1 counterexample to the claim as stated: on `snapC1` the origin cell is
recorded blocked at instant 2 (the car wraps back onto it) and is
nevertheless in the free row used by the transition generator at instant 2,
an instant below the horizon, so blocked(2) and free(2) are not disjoint. -/
theorem blocked_free_overlap_cex :
    blockedAt snapC1 2 (0, 0) ∧ ((0, 0) : Cell) ∈ freeCellsAt snapC1 2 ∧
      2 < maxTime snapC1 := by decide

/-! ### Claim C2 -/

theorem projectX_lt (width x speed t : Nat) (hw : 0 < width) (hx : x < width) :
    projectX width x speed t < width := by
  unfold projectX
  split
  · omega
  · exact Nat.mod_lt _ hw

/-- C2 (amended).  A car's projected cell at instant `t` is recorded blocked,
and so is every cell strictly between its instant-`(t-1)` and instant-`t`
x positions, in the direction of travel (for the non-wrapping sweep this
needs speed magnitude above 1; the wrapping branch marks the cells below the
previous position and strictly beyond the new position).  The vacated
instant-`(t-1)` cell itself is not part of the sweep. -/
theorem sweep_blocked (s : Snapshot) (car : Car) (hcar : car ∈ s.cars)
    (hx : car.x < s.width) (hy : car.y < s.numLanes)
    (t : Nat) (ht1 : 1 ≤ t) (ht2 : t < maxTime s) :
    blockedAt s t (projectCell s.width car t) ∧
    ((projectCell s.width car t).1 < (projectCell s.width car (t - 1)).1 →
      1 < car.speed0.natAbs →
      ∀ x, (projectCell s.width car t).1 < x → x < (projectCell s.width car (t - 1)).1 →
        blockedAt s t (x, car.y)) ∧
    ((projectCell s.width car (t - 1)).1 < (projectCell s.width car t).1 →
      ∀ x, x < (projectCell s.width car (t - 1)).1 ∨
          ((projectCell s.width car t).1 < x ∧ x < s.width) →
        blockedAt s t (x, car.y)) := by
  have hw : 0 < s.width := by omega
  obtain ⟨l1, l2, hsplit⟩ := List.append_of_mem hcar
  have hgood1 : GoodState (gridCellList s.width s.numLanes) t
      (l1.foldl (carStep s.width t) ([], gridCellList s.width s.numLanes)) :=
    goodState_foldCars l1 (goodState_init s.width s.numLanes t)
  have hinst : (instantState s t).1 =
      (l2.foldl (carStep s.width t)
        (carStep s.width t (l1.foldl (carStep s.width t)
          ([], gridCellList s.width s.numLanes)) car)).1 := by
    rw [instantState, hsplit, List.foldl_append, List.foldl_cons]
  have hprev : (projectCell s.width car (t - 1)).1 < s.width :=
    projectX_lt s.width car.x car.speed0.natAbs (t - 1) hw hx
  refine ⟨?_, ?_, ?_⟩
  · have hproj : projectCell s.width car t ∈ gridCellList s.width s.numLanes :=
      mem_gridCellList.mpr ⟨projectX_lt s.width car.x car.speed0.natAbs t hw hx, hy⟩
    have h1 := carStep_proj_fact hgood1 hproj
    have h2 : EFact.blocked (projectCell s.width car t).1 (projectCell s.width car t).2 t
        ∈ (instantState s t).1 := by
      rw [hinst]; exact foldCars_fst_subset l2 h1
    exact (blocked_initFacts_iff s _ _ t).mpr (Or.inr ⟨ht1, ht2, h2⟩)
  · intro hlt hsp x hx1 hx2
    have hcell : ((x, car.y) : Cell) ∈ gridCellList s.width s.numLanes :=
      mem_gridCellList.mpr ⟨by omega, hy⟩
    have h1 := carStep_sweep_fact hgood1 hcell (Or.inl ⟨hlt, hsp, hx1, hx2⟩)
    have h2 : EFact.blocked x car.y t ∈ (instantState s t).1 := by
      rw [hinst]; exact foldCars_fst_subset l2 h1
    exact (blocked_initFacts_iff s _ _ t).mpr (Or.inr ⟨ht1, ht2, h2⟩)
  · intro hgt x hx1
    have hcell : ((x, car.y) : Cell) ∈ gridCellList s.width s.numLanes :=
      mem_gridCellList.mpr ⟨by omega, hy⟩
    have h1 := carStep_sweep_fact hgood1 hcell (Or.inr ⟨hgt, hx1⟩)
    have h2 : EFact.blocked x car.y t ∈ (instantState s t).1 := by
      rw [hinst]; exact foldCars_fst_subset l2 h1
    exact (blocked_initFacts_iff s _ _ t).mpr (Or.inr ⟨ht1, ht2, h2⟩)

/-- C2 witness: the sweep theorem applied to the 4 → 1 sweep of `snapC2` at
instant 1. -/
theorem sweep_blocked_witness :
    blockedAt snapC2 1 (projectCell snapC2.width ⟨0, 4, 0, -3⟩ 1) ∧
    blockedAt snapC2 1 (2, 0) ∧ blockedAt snapC2 1 (3, 0) :=
  have h := sweep_blocked snapC2 ⟨0, 4, 0, -3⟩ (by decide) (by decide) (by decide)
    1 (by decide) (by decide)
  ⟨h.1, h.2.1 (by decide) (by decide) 2 (by decide) (by decide),
    h.2.1 (by decide) (by decide) 3 (by decide) (by decide)⟩

/-- C2 counterexample to the claim as stated: the obstacle of `snapC2` sweeps
from x=4 to x=1 during instant 1; cells 1, 2, 3 are blocked at instant 1 but
the vacated cell 4 is not, so "cells 4, 3, 2 and 1 all blocked" fails. -/
theorem sweep_vacated_cex :
    ¬ blockedAt snapC2 1 (4, 0) ∧
    blockedAt snapC2 1 (1, 0) ∧ blockedAt snapC2 1 (2, 0) ∧ blockedAt snapC2 1 (3, 0) ∧
    (projectCell snapC2.width ⟨0, 4, 0, -3⟩ 0).1 = 4 ∧
    (projectCell snapC2.width ⟨0, 4, 0, -3⟩ 1).1 = 1 ∧
    1 < maxTime snapC2 := by decide

/-! ### Claim C3 -/

theorem clampX (x : Nat) : (if x = 0 then x else max 0 (x - 1)) = x - 1 := by
  cases x <;> simp

theorem clampUpY (y : Nat) : (if y = 0 then y else y - 1) = y - 1 := by
  cases y <;> simp

theorem clampDownY (l y : Nat) (hy : y < l) :
    (if y = l - 1 then y else y + 1) = min (l - 1) (y + 1) := by
  split <;> omega

/-- C3 (confirmed).  For every grid cell `(x, y)` and instant `t` in
`[1, max_time)`, the emitted lateral-up successor is exactly
`(max(0, x-1), max(0, y-1))` when that candidate is in the free row of `t`,
and otherwise the same-lane cell `(max(0, x-1), y)`; the lateral-down
successor mirrors this with the candidate lane clamped at the last lane
index.  (On naturals `max(0, x-1)` is written `x - 1`.) -/
theorem lateral_successors (s : Snapshot) (x y : Nat)
    (hx : x < s.width) (hy : y < s.numLanes)
    (t : Nat) (ht1 : 1 ≤ t) (ht2 : t < maxTime s) (nx ny : Nat) :
    (EFact.upNext x y nx ny t ∈ initFacts s ↔
      nx = x - 1 ∧
        ny = (if ((x - 1 : Nat), (y - 1 : Nat)) ∈ freeCellsAt s t then y - 1 else y)) ∧
    (EFact.downNext x y nx ny t ∈ initFacts s ↔
      nx = x - 1 ∧
        ny = (if ((x - 1 : Nat), min (s.numLanes - 1) (y + 1)) ∈ freeCellsAt s t
              then min (s.numLanes - 1) (y + 1) else y)) := by
  have hmax := one_le_maxTime s
  have hup := notOcc_mem_initFacts_iff s (EFact.upNext x y nx ny t)
    (by simp [OccFact]) (by simp) (by simp) (by simp)
  have hdn := notOcc_mem_initFacts_iff s (EFact.downNext x y nx ny t)
    (by simp [OccFact]) (by simp) (by simp) (by simp)
  constructor
  · rw [hup, transFacts]
    simp only [List.mem_flatMap, List.mem_range'_1]
    constructor
    · rintro ⟨t', ⟨ht1', ht2'⟩, c, hcmem, hmem⟩
      simp only [cellTransFacts, List.mem_append, List.mem_cons, List.not_mem_nil,
        or_false, List.mem_map] at hmem
      rcases hmem with (h | h) | ⟨sp, _, h⟩
      · injection h with e1 e2 e3 e4 e5
        rw [← e1] at e3
        rw [← e1, ← e2, ← e5] at e4
        rw [clampX] at e3 e4
        rw [clampUpY] at e4
        exact ⟨e3, e4⟩
      · exact EFact.noConfusion h
      · exact EFact.noConfusion h
    · rintro ⟨h3, h4⟩
      refine ⟨t, ⟨ht1, by omega⟩, (x, y), mem_gridCellList.mpr ⟨hx, hy⟩, ?_⟩
      simp only [cellTransFacts, List.mem_append, List.mem_cons]
      left; left
      rw [h3, h4, clampX, clampUpY]
  · rw [hdn, transFacts]
    simp only [List.mem_flatMap, List.mem_range'_1]
    constructor
    · rintro ⟨t', ⟨ht1', ht2'⟩, c, hcmem, hmem⟩
      simp only [cellTransFacts, List.mem_append, List.mem_cons, List.not_mem_nil,
        or_false, List.mem_map] at hmem
      rcases hmem with (h | h) | ⟨sp, _, h⟩
      · exact EFact.noConfusion h
      · injection h with e1 e2 e3 e4 e5
        have hcy : c.2 < s.numLanes := (mem_gridCellList.mp hcmem).2
        rw [← e2] at hcy
        rw [← e1] at e3
        rw [← e1, ← e2, ← e5] at e4
        rw [clampX] at e3 e4
        rw [clampDownY s.numLanes y hcy] at e4
        exact ⟨e3, e4⟩
      · exact EFact.noConfusion h
    · rintro ⟨h3, h4⟩
      refine ⟨t, ⟨ht1, by omega⟩, (x, y), mem_gridCellList.mpr ⟨hx, hy⟩, ?_⟩
      simp only [cellTransFacts, List.mem_append, List.mem_cons]
      left; right; left
      rw [h3, h4, clampX, clampDownY s.numLanes y hy]

/-- C3 witness: on the car-free snapshot `snapC3`, the up successor of (2,1)
at instant 1 is (1,0), obtained through the theorem. -/
theorem lateral_successors_witness :
    EFact.upNext 2 1 1 0 1 ∈ initFacts snapC3 :=
  ((lateral_successors snapC3 2 1 (by decide) (by decide) 1 (by decide) (by decide)
    1 0).1).mpr (by decide)

/-! ### Claim C4 -/

/-- C4 (amended).  The emitted goal condition is a disjunction asserting the
agent at the finish cell at instant `i` for every `i` in `range(width)` —
i.e. the instants below `width`, one short of covering every instant below
the horizon `width + 1` when the minimum speed magnitude is 1 — and it is
satisfied exactly when the trajectory is at the finish cell at some instant
in `[0, width)`; it never requires occupancy at every instant. -/
theorem goal_disjunction (s : Snapshot) (hist : Nat → Cell) :
    goalSat s hist ↔ ∃ i, i < s.width ∧ hist i = (s.finishX, s.finishY) := by
  unfold goalSat goalDisjuncts
  constructor
  · rintro ⟨d, hd, hh⟩
    rw [List.mem_map] at hd
    obtain ⟨i, hi, rfl⟩ := hd
    rw [List.mem_range] at hi
    exact ⟨i, hi, hh⟩
  · rintro ⟨i, hi, hh⟩
    exact ⟨(s.finishX, s.finishY, i), List.mem_map.mpr ⟨i, List.mem_range.mpr hi, rfl⟩, hh⟩

/-- C4 counterexample to the claim as stated: on `snapC4` the horizon is
`max_time = 3`, yet no disjunct mentions instant 2, and a trajectory that is
at the finish cell exactly at instant 2 does not satisfy the goal. -/
theorem goal_missing_instant_cex :
    ((snapC4.finishX, snapC4.finishY, 2) : Nat × Nat × Nat) ∉ goalDisjuncts snapC4 ∧
    2 < maxTime snapC4 ∧
    ¬ goalSat snapC4 histC4 ∧ histC4 2 = (snapC4.finishX, snapC4.finishY) := by decide

/-! ### Claim C6 -/

/-- C6 (confirmed).  The projected x position the encoder uses for an
obstacle equals `(x0 - s*t) mod width` computed in the integers, always lies
in `[0, width)`, is total in `t`, and leaves the lane unchanged. -/
theorem projection_modular (width : Nat) (car : Car) (t : Nat)
    (hw : 0 < width) (hx : car.x < width) :
    ((projectCell width car t).1 : Int) =
      ((car.x : Int) - (car.speed0.natAbs : Int) * t) % (width : Int) ∧
    (projectCell width car t).1 < width ∧
    (projectCell width car t).2 = car.y := by
  refine ⟨?_, projectX_lt width car.x car.speed0.natAbs t hw hx, rfl⟩
  show ((projectX width car.x car.speed0.natAbs t : Nat) : Int) = _
  unfold projectX
  split
  · rename_i h
    have hcast : ((car.x - car.speed0.natAbs * t : Nat) : Int) =
        (car.x : Int) - (car.speed0.natAbs : Int) * t := by
      push_cast [h]
      ring
    rw [hcast, Int.emod_eq_of_lt (by omega) (by omega)]
  · rename_i h
    have hm : car.speed0.natAbs * t % width < width := Nat.mod_lt _ hw
    have hle : car.speed0.natAbs * t % width ≤ car.x + width := by omega
    have h1 : (((car.x + width - car.speed0.natAbs * t % width) % width : Nat) : Int) =
        ((car.x : Int) + width - ((car.speed0.natAbs : Int) * t) % width) % width := by
      push_cast [hle]
      ring_nf
    rw [h1]
    have h2 : (car.x : Int) + width - ((car.speed0.natAbs : Int) * t) % width =
        ((car.x : Int) - ((car.speed0.natAbs : Int) * t) % width) + width := by
      ring
    rw [h2, Int.add_emod_self, Int.sub_emod, Int.emod_emod_of_dvd _ dvd_rfl,
      ← Int.sub_emod]

/-- C6 witness: the projection theorem at width 4, an obstacle at x=3 with
speed magnitude 2, and t=5. -/
theorem projection_modular_witness :
    ((projectCell 4 ⟨0, 3, 1, -2⟩ 5).1 : Int) =
      (((⟨0, 3, 1, -2⟩ : Car).x : Int) -
        (((⟨0, 3, 1, -2⟩ : Car).speed0.natAbs : Int)) * 5) % ((4 : Nat) : Int) ∧
    (projectCell 4 ⟨0, 3, 1, -2⟩ 5).1 < 4 ∧
    (projectCell 4 ⟨0, 3, 1, -2⟩ 5).2 = (⟨0, 3, 1, -2⟩ : Car).y :=
  projection_modular 4 ⟨0, 3, 1, -2⟩ 5 (by decide) (by decide)

/-! ### Claim C7 -/

theorem origin_mem_row0Fold (cars : List Car) (st : MarkState)
    (h : ((0, 0) : Cell) ∈ st.2) :
    ((0, 0) : Cell) ∈ (cars.foldl row0Step st).2 := by
  induction cars generalizing st with
  | nil => exact h
  | cons car cars ih =>
    refine ih _ ?_
    unfold row0Step
    by_cases hc : car.x ≠ 0 ∨ car.y ≠ 0
    · rw [if_pos hc]
      refine (List.mem_erase_of_ne ?_).mpr h
      intro heq
      injection heq with h1 h2
      rcases hc with hc | hc
      · exact hc h1.symm
      · exact hc h2.symm
    · rwa [if_neg hc]

/-- C7 (confirmed).  When the agent starts at the origin cell `pt0pt0`, a
cell is blocked at instant 0 exactly when some obstacle occupies it and it is
not the agent's origin cell; the origin cell stays in the free row of
instant 0; and the blocking facts are entirely independent of the agent's
position (moving the agent changes no `blocked` fact at any instant), so the
agent's own position never acts as an obstacle. -/
theorem origin_exempt_instant0 (s : Snapshot) (hax : s.agentX = 0) (hay : s.agentY = 0)
    (hw : 0 < s.width) (hl : 0 < s.numLanes) :
    (∀ cx cy : Nat, blockedAt s 0 (cx, cy) ↔
      ((∃ car ∈ s.cars, car.x = cx ∧ car.y = cy) ∧
        ((cx, cy) : Cell) ≠ (s.agentX, s.agentY))) ∧
    ((s.agentX, s.agentY) : Cell) ∈ freeCellsAt s 0 ∧
    (∀ ax ay x y t, EFact.blocked x y t ∈ initFacts { s with agentX := ax, agentY := ay } ↔
      EFact.blocked x y t ∈ initFacts s) := by
  rw [hax, hay]
  refine ⟨?_, ?_, ?_⟩
  · intro cx cy
    unfold blockedAt
    rw [blocked_initFacts_iff, blocked_row0State_iff]
    constructor
    · rintro (⟨_, car, hmem, hcx, hcy, hne⟩ | ⟨h1, _, _⟩)
      · refine ⟨⟨car, hmem, hcx, hcy⟩, ?_⟩
        intro hc
        injection hc with hc1 hc2
        rcases hne with hne | hne
        · exact hne (hcx.trans hc1)
        · exact hne (hcy.trans hc2)
      · omega
    · rintro ⟨⟨car, hmem, hcx, hcy⟩, hne⟩
      refine Or.inl ⟨rfl, car, hmem, hcx, hcy, ?_⟩
      by_contra hboth
      push_neg at hboth
      refine hne ?_
      rw [← hcx, ← hcy, hboth.1, hboth.2]
  · have hbase : ((0, 0) : Cell) ∈ baseRow s 0 := by
      unfold baseRow
      rw [if_pos rfl]
      exact origin_mem_row0Fold s.cars _ (mem_gridCellList.mpr ⟨hw, hl⟩)
    unfold freeCellsAt
    split
    · exact List.mem_append_left _ hbase
    · exact hbase
  · intro ax ay x y t
    rw [blocked_initFacts_iff, blocked_initFacts_iff]
    exact Iff.rfl

/-- C7 witness: on `snapC7` the car cell (2,1) is blocked at instant 0, the
origin cell is not (despite a car standing on it), and the origin stays
free. -/
theorem origin_exempt_instant0_witness :
    blockedAt snapC7 0 (2, 1) ∧ ¬ blockedAt snapC7 0 (0, 0) ∧
    ((snapC7.agentX, snapC7.agentY) : Cell) ∈ freeCellsAt snapC7 0 :=
  have h := origin_exempt_instant0 snapC7 rfl rfl (by decide) (by decide)
  ⟨(h.1 2 1).mpr (by decide), fun hb => by
      have := (h.1 0 0).mp hb
      exact this.2 rfl,
    h.2.1⟩

/-! ### Claim C8 -/

/-- C8: evaluation at the failing input.  On `snapC8` (width 2) the problem
file declares only the time objects `range(width) = [0, 1]`, while the
emitted init facts name the instants 2 and 3 (`max_time = 3`, and the
`next_instant` chain reaches `max_time + 1`), so the facts reference
undeclared time objects and the declared set falls short of `[0, horizon]`. -/
theorem time_objects_undeclared :
    EFact.nextInstant 2 3 ∈ initFacts snapC8 ∧
    2 ∈ (initFacts snapC8).flatMap factInstants ∧
    3 ∈ (initFacts snapC8).flatMap factInstants ∧
    2 ∉ timeObjects snapC8 ∧ 3 ∉ timeObjects snapC8 ∧
    maxTime snapC8 = 3 ∧ timeObjects snapC8 = [0, 1] := by decide

/-! ### Claims C5, C9, C10: the plan consumers -/

theorem pySetCard1_pair (a b : List Char) : pySetCard1 [a, b] = true ↔ a = b := by
  by_cases h : a = b
  · subst h
    simp [pySetCard1, List.dedup_cons_of_mem, List.mem_dedup]
  · simp only [pySetCard1]
    rw [List.dedup_cons_of_not_mem (by simp [List.mem_dedup, h])]
    simp [h]

theorem generatePlanStep_lateral (acc : List Int) (line : String)
    (act c1 c2 : List Char) (rest : List (List Char)) (y1 y2 : List Char)
    (hhead : line.data.head? = some '(')
    (htoks : lineTokens line = ('(' :: act) :: c1 :: c2 :: rest)
    (hact : act = ['u', 'p'] ∨ act = ['d', 'o', 'w', 'n'])
    (h1 : coordOf c1 = some y1) (h2 : coordOf c2 = some y2) :
    generatePlanStep acc line =
      .ok (acc ++ [if y1 = y2 then (-1 : Int) else if act = ['u', 'p'] then 0 else 1]) := by
  unfold generatePlanStep
  rw [if_neg (by simp [hhead])]
  have htake : (c1 :: c2 :: rest).take 2 = [c1, c2] := rfl
  have hco : (([c1, c2] : List (List Char)).mapM coordOf) = some [y1, y2] := by
    simp [List.mapM, List.mapM.loop, h1, h2]
  simp only [htoks, List.headD_cons, List.drop_one, List.tail_cons, htake, hco]
  rcases hact with rfl | rfl
  · rw [if_pos rfl]
    by_cases hy : y1 = y2
    · rw [if_pos ((pySetCard1_pair y1 y2).mpr hy), if_pos hy]
    · rw [if_neg (fun hb => hy ((pySetCard1_pair y1 y2).mp hb)), if_neg hy,
        if_pos rfl]
  · rw [if_neg (by decide), if_pos rfl]
    by_cases hy : y1 = y2
    · rw [if_pos ((pySetCard1_pair y1 y2).mpr hy), if_pos hy]
    · rw [if_neg (fun hb => hy ((pySetCard1_pair y1 y2).mp hb)), if_neg hy,
        if_neg (by decide)]

/-- C5 (amended).  For a well-formed lateral plan line, the translator keys
on the *lane* (y) field of the two endpoint cell names — the second
`pt`-separated field, `points.split('pt')[2]` — not on the x field: if the
two lane fields coincide it emits `env.actions[-1]` (the minimum-speed
forward action), and if they differ it emits the lateral action
(`env.actions[0]` for up, `env.actions[1]` for down). -/
theorem lateral_lane_keyed (line : String) (act c1 c2 : List Char)
    (rest : List (List Char)) (y1 y2 : List Char)
    (hhead : line.data.head? = some '(')
    (htoks : lineTokens line = ('(' :: act) :: c1 :: c2 :: rest)
    (hact : act = ['u', 'p'] ∨ act = ['d', 'o', 'w', 'n'])
    (h1 : coordOf c1 = some y1) (h2 : coordOf c2 = some y2) :
    generatePlan [line] =
      .ok [if y1 = y2 then (-1 : Int) else if act = ['u', 'p'] then 0 else 1] := by
  unfold generatePlan
  simp only [List.foldlM]
  rw [generatePlanStep_lateral [] line act c1 c2 rest y1 y2 hhead htoks hact h1 h2]
  rfl

/-- C5 witness: a lateral-up plan line whose endpoints share lane 2
translates to `env.actions[-1]`. -/
theorem lateral_lane_keyed_witness :
    generatePlan ["(up pt9pt2 pt8pt2 0 1)"] = .ok [-1] := by
  have h := lateral_lane_keyed "(up pt9pt2 pt8pt2 0 1)" ['u', 'p'] ("pt9pt2").data
    ("pt8pt2").data [("0").data, ("1)").data] ['2'] ['2'] (by decide) (by decide)
    (Or.inl rfl) (by decide) (by decide)
  simpa using h

/-- C5 counterexample to the claim as stated: in the plan line
`(up pt4pt1 pt3pt1 0 1)` the two endpoint cells have different x fields
(4 versus 3), yet the translation is `env.actions[-1]` (minimum-speed
forward), not the lateral-up action `env.actions[0]`. -/
theorem lateral_x_differs_cex :
    generatePlan ["(up pt4pt1 pt3pt1 0 1)"] = .ok [-1] ∧
    (splitPt ("pt4pt1").data []).get? 1 ≠ (splitPt ("pt3pt1").data []).get? 1 ∧
    ((-1 : Int)) ≠ 0 :=
  ⟨rfl, by decide, by decide⟩

/-- C9 (amended).  A plan line that begins with `(` but whose action name is
none of `up`, `down`, `forward` is silently skipped (no environment action
and no error), provided its cell tokens parse; and a line beginning with any
other character is ignored as a comment. -/
theorem unknown_action_skipped :
    (∀ (line : String) (act : List Char) (toks ys : List (List Char)),
      line.data.head? = some '(' →
      lineTokens line = ('(' :: act) :: toks →
      (toks.take 2).mapM coordOf = some ys →
      act ≠ ['u', 'p'] → act ≠ ['d', 'o', 'w', 'n'] →
      act ≠ ['f', 'o', 'r', 'w', 'a', 'r', 'd'] →
      generatePlan [line] = .ok []) ∧
    (∀ line : String, line.data.head? ≠ some '(' → generatePlan [line] = .ok []) := by
  constructor
  · intro line act toks ys hhead htoks hco hup hdn hfw
    unfold generatePlan
    simp only [List.foldlM]
    have hstep : generatePlanStep [] line = .ok [] := by
      unfold generatePlanStep
      rw [if_neg (by simp [hhead])]
      simp only [htoks, List.headD_cons, List.drop_one, List.tail_cons, hco]
      rw [if_neg hup, if_neg hdn, if_neg hfw]
    rw [hstep]
    rfl
  · intro line hne
    unfold generatePlan
    simp only [List.foldlM]
    have hstep : generatePlanStep [] line = .ok [] := by
      unfold generatePlanStep
      rw [if_pos hne]
    rw [hstep]
    rfl

/-- C9 witness: an unrecognized action line and a comment line, both
translated to no action through the theorem. -/
theorem unknown_action_skipped_witness :
    generatePlan ["(wait pt0pt0 pt0pt1 0 1)"] = .ok [] ∧
    generatePlan ["; cost = 3 (unit cost)"] = .ok [] :=
  ⟨unknown_action_skipped.1 "(wait pt0pt0 pt0pt1 0 1)" ['w', 'a', 'i', 't']
      [("pt0pt0").data, ("pt0pt1").data, ("0").data, ("1)").data] [['0'], ['1']]
      (by decide) (by decide) (by decide) (by decide) (by decide) (by decide),
    unknown_action_skipped.2 "; cost = 3 (unit cost)" (by decide)⟩

/-- C9 counterexample to the claim as stated: the malformed action line
`(noop pt0pt0 pt1pt0 0 1)` is not a fatal parse error — `generatePlan`
returns successfully and simply drops the line. -/
theorem unknown_action_not_fatal_cex :
    generatePlan ["(noop pt0pt0 pt1pt0 0 1)"] = .ok [] := rfl

/-- C10 (confirmed).  The two plan consumers perform the same translation:
for every plan file, the ordered action list `generatePlan` returns equals
the ordered sequence of actions `simulateSolution` passes to `env.step`
(both modelled with the same error behaviour for malformed lines). -/
theorem plan_consumers_agree (lines : List String) :
    simulateSteps lines = generatePlan lines := rfl
